import Mathlib

/-!
Verification of the Golomb-code core of dsi-bitstream (src/src/codes/golomb.rs).

The core under verification splits a value into a quotient and a remainder with
respect to a modulus, delegates the quotient to an external unary code and the
remainder to an external minimal binary (truncated binary) code, and combines
the results. The external sub-codes are not part of the core; they are modelled
here from the specification. The bit-stream side effects of the Rust traits are
embedded by threading the stream state explicitly: a Rust method taking an
exclusive reference and returning a Result is a function from the state to the
Except value paired with the updated state, so that the state left behind by a
failing sub-operation stays observable.
-/

namespace GolombSpec

/-- Modelled from the spec: floor of the base-two logarithm, realized as a
fuel-based structural recursion so that it evaluates by kernel reduction. The
first argument is the fuel, the second the value. -/
def log2fuel : Nat → Nat → Nat
  | 0, _ => 0
  | fuel + 1, m => if 2 ≤ m then log2fuel fuel (m / 2) + 1 else 0

/-- Modelled from the spec: the floor base-two logarithm used by the minimal
binary code, with the value itself as sufficient fuel. -/
def floorLog2 (m : Nat) : Nat :=
  log2fuel m m

/-- Modelled from the spec: the external unary code writer (the core delegates
to a bit-stream collaborator for it). A value q is encoded as q zero bits
followed by a single one bit, for a total of q + 1 bits. -/
def write_unary_bits (q : Nat) : List Bool :=
  List.replicate q false ++ [true]

/-- Modelled from the spec: the external unary code reader. It counts the zero
bits preceding the first one bit and consumes the terminator; an empty stream
before the terminator is an end-of-stream failure. -/
def read_unary_bits : List Bool → Option (Nat × List Bool)
  | [] => none
  | true :: rest => some (0, rest)
  | false :: rest =>
    match read_unary_bits rest with
    | some (q, s) => some (q + 1, s)
    | none => none

/-- Modelled from the spec: fixed-width binary encoding of a value, most
significant bit first, the block primitive of the minimal binary code. -/
def natToBits : Nat → Nat → List Bool
  | 0, _ => []
  | w + 1, v => natToBits w (v / 2) ++ [v % 2 == 1]

/-- Modelled from the spec: fixed-width binary decoding, consuming one bit at a
time from the front of the stream into an accumulator, most significant bit
first. -/
def readBitsAux : Nat → Nat → List Bool → Option (Nat × List Bool)
  | 0, acc, s => some (acc, s)
  | _ + 1, _, [] => none
  | w + 1, acc, c :: s => readBitsAux w (acc * 2 + (if c then 1 else 0)) s

/-- Modelled from the spec: the pure length function of the external minimal
binary code. With l the floor base-two logarithm of the modulus m, a value in
the short sub-range takes l bits and a value in the long sub-range takes l + 1
bits; the short sub-range holds the values below 2 ^ (l + 1) - m. -/
def len_minimal_binary (r m : Nat) : Nat :=
  if r < 2 ^ (floorLog2 m + 1) - m then floorLog2 m else floorLog2 m + 1

/-- Modelled from the spec: the external minimal binary code writer. With l the
floor base-two logarithm of m and limit the size of the short sub-range, a
value below limit is written with l bits and any other value r is written as
r + limit with l + 1 bits. -/
def write_minimal_binary_bits (r m : Nat) : List Bool :=
  if r < 2 ^ (floorLog2 m + 1) - m then natToBits (floorLog2 m) r
  else natToBits (floorLog2 m + 1) (r + (2 ^ (floorLog2 m + 1) - m))

/-- Modelled from the spec: the external minimal binary code reader. It reads l
bits; if the value read is below limit it is returned as is, otherwise one
further bit is appended and limit is subtracted. -/
def read_minimal_binary_bits (m : Nat) (s : List Bool) : Option (Nat × List Bool) :=
  match readBitsAux (floorLog2 m) 0 s with
  | none => none
  | some (v, s₁) =>
    if v < 2 ^ (floorLog2 m + 1) - m then some (v, s₁)
    else
      match s₁ with
      | [] => none
      | c :: s₂ => some (v * 2 + (if c then 1 else 0) - (2 ^ (floorLog2 m + 1) - m), s₂)

/-- Faithful translation of len_golomb from src/src/codes/golomb.rs: the length
of the Golomb code of n with modulo b is the unary length of the quotient,
namely the quotient plus one, plus the minimal binary length of the remainder. -/
def len_golomb (n b : Nat) : Nat :=
  n / b + 1 + len_minimal_binary (n % b) b

/-- Interface of the external bit source consumed by the GolombRead trait: the
BitRead bound supplies read_unary and the MinimalBinaryRead bound supplies
read_minimal_binary. Each method maps the stream state to an Except value
paired with the state it leaves behind. -/
structure ReaderOps (σ ε : Type) where
  read_unary : σ → Except ε Nat × σ
  read_minimal_binary : Nat → σ → Except ε Nat × σ

/-- Interface of the external bit sink consumed by the GolombWrite trait: the
BitWrite bound supplies write_unary and the MinimalBinaryWrite bound supplies
write_minimal_binary; each reports the number of bits it wrote. -/
structure WriterOps (σ ε : Type) where
  write_unary : Nat → σ → Except ε Nat × σ
  write_minimal_binary : Nat → Nat → σ → Except ε Nat × σ

variable {σ ε : Type}

/-- Faithful translation of GolombRead::read_golomb from
src/src/codes/golomb.rs: read one unary code yielding q, then one minimal
binary code with modulus b yielding r, propagating a failure of either read
unchanged as the question mark operator does, and return q * b + r computed in
u64 arithmetic, hence reduced modulo 2 ^ 64. -/
def read_golomb (R : ReaderOps σ ε) (b : Nat) (s : σ) : Except ε Nat × σ :=
  match R.read_unary s with
  | (Except.error e, s₁) => (Except.error e, s₁)
  | (Except.ok q, s₁) =>
    match R.read_minimal_binary b s₁ with
    | (Except.error e, s₂) => (Except.error e, s₂)
    | (Except.ok r, s₂) => (Except.ok ((q * b + r) % 2 ^ 64), s₂)

/-- Faithful translation of GolombWrite::write_golomb from
src/src/codes/golomb.rs: write the unary code of n / b, then the minimal binary
code of n % b with modulus b, propagating a failure of either write unchanged
as the question mark operator does, and return the sum of the two reported bit
counts. -/
def write_golomb (W : WriterOps σ ε) (n b : Nat) (s : σ) : Except ε Nat × σ :=
  match W.write_unary (n / b) s with
  | (Except.error e, s₁) => (Except.error e, s₁)
  | (Except.ok k₁, s₁) =>
    match W.write_minimal_binary (n % b) b s₁ with
    | (Except.error e, s₂) => (Except.error e, s₂)
    | (Except.ok k₂, s₂) => (Except.ok (k₁ + k₂), s₂)

/-- Rust u64 division, which raises an arithmetic fault when the divisor is
zero; the fault is modelled as none. -/
def checkedDiv (a b : Nat) : Option Nat :=
  if b = 0 then none else some (a / b)

/-- Rust u64 remainder, which raises an arithmetic fault when the divisor is
zero; the fault is modelled as none. -/
def checkedMod (a b : Nat) : Option Nat :=
  if b = 0 then none else some (a % b)

/-- Translation of len_golomb keeping the division and the remainder of the
source checked, so that the arithmetic fault Rust raises on a zero modulus is
visible as none. -/
def len_golombChecked (n b : Nat) : Option Nat :=
  match checkedDiv n b, checkedMod n b with
  | some q, some r => some (q + 1 + len_minimal_binary r b)
  | _, _ => none

/-- Translation of GolombWrite::write_golomb keeping the division and the
remainder of the source checked, so that the arithmetic fault Rust raises on a
zero modulus is visible as none. -/
def write_golombChecked (W : WriterOps σ ε) (n b : Nat) (s : σ) :
    Option (Except ε Nat × σ) :=
  match checkedDiv n b, checkedMod n b with
  | some q, some r =>
    some (match W.write_unary q s with
      | (Except.error e, s₁) => (Except.error e, s₁)
      | (Except.ok k₁, s₁) =>
        match W.write_minimal_binary r b s₁ with
        | (Except.error e, s₂) => (Except.error e, s₂)
        | (Except.ok k₂, s₂) => (Except.ok (k₁ + k₂), s₂))
  | _, _ => none

/-- Concrete bit sink: the state is the list of bits flushed so far, and each
modelled sub-writer appends its code and reports the number of bits it wrote. -/
def listWriter : WriterOps (List Bool) Unit where
  write_unary q s := (Except.ok (write_unary_bits q).length, s ++ write_unary_bits q)
  write_minimal_binary r m s :=
    (Except.ok (write_minimal_binary_bits r m).length, s ++ write_minimal_binary_bits r m)

/-- Concrete bit source: the state is the list of bits not yet consumed, and
running off the end of the stream is the only failure. -/
def listReader : ReaderOps (List Bool) Unit where
  read_unary s :=
    match read_unary_bits s with
    | some (q, s₁) => (Except.ok q, s₁)
    | none => (Except.error (), [])
  read_minimal_binary m s :=
    match read_minimal_binary_bits m s with
    | some (r, s₁) => (Except.ok r, s₁)
    | none => (Except.error (), [])

/-- Bit sink whose sub-writers always fail, exercising the error path of the
encoder. -/
def failWriter : WriterOps (List Bool) Unit where
  write_unary _ s := (Except.error (), s)
  write_minimal_binary _ _ s := (Except.error (), s)

/-- Bit source standing for a stream whose unary code decodes to 2 ^ 63 and
whose minimal binary code decodes to 1, exhibiting u64 overflow in the
decoder. -/
def bigReader : ReaderOps Unit Unit where
  read_unary s := (Except.ok (2 ^ 63), s)
  read_minimal_binary _ s := (Except.ok 1, s)

theorem log2fuel_eq (fuel : Nat) : ∀ m : Nat, m ≤ fuel → log2fuel fuel m = Nat.log2 m := by
  induction fuel with
  | zero =>
    intro m hm
    have : m = 0 := Nat.le_zero.mp hm
    subst this
    simp [log2fuel, Nat.log2]
  | succ fuel ih =>
    intro m hm
    by_cases h : 2 ≤ m
    · have hdiv : m / 2 ≤ fuel := by
        have : m / 2 < m := Nat.div_lt_self (by omega) (by omega)
        omega
      rw [Nat.log2, log2fuel, ih _ hdiv]
    · rw [Nat.log2, log2fuel]
      simp [h]

theorem floorLog2_eq (m : Nat) : floorLog2 m = Nat.log2 m :=
  log2fuel_eq m m le_rfl

theorem pow_floorLog2_le (m : Nat) (hm : 1 ≤ m) : 2 ^ floorLog2 m ≤ m := by
  rw [floorLog2_eq, Nat.log2_eq_log_two]
  exact Nat.pow_log_le_self 2 (by omega)

theorem lt_pow_floorLog2_succ (m : Nat) : m < 2 ^ (floorLog2 m + 1) := by
  rw [floorLog2_eq, Nat.log2_eq_log_two]
  exact Nat.lt_pow_succ_log_self (by norm_num) m

theorem read_unary_bits_roundtrip (q : Nat) (rest : List Bool) :
    read_unary_bits (write_unary_bits q ++ rest) = some (q, rest) := by
  induction q with
  | zero => rfl
  | succ q ih =>
    have hstep : write_unary_bits (q + 1) ++ rest = false :: (write_unary_bits q ++ rest) := by
      simp [write_unary_bits, List.replicate_succ]
    rw [hstep, read_unary_bits, ih]

theorem write_unary_bits_length (q : Nat) : (write_unary_bits q).length = q + 1 := by
  simp [write_unary_bits]

theorem natToBits_length (w : Nat) : ∀ v : Nat, (natToBits w v).length = w := by
  induction w with
  | zero => intro v; rfl
  | succ w ih => intro v; simp [natToBits, ih]

theorem readBitsAux_append (l : List Bool) :
    ∀ (acc : Nat) (rest : List Bool),
      readBitsAux l.length acc (l ++ rest) =
        some (l.foldl (fun a c => a * 2 + (if c then 1 else 0)) acc, rest) := by
  induction l with
  | nil => intro acc rest; rfl
  | cons c t ih =>
    intro acc rest
    simp only [List.length_cons, List.cons_append, readBitsAux, List.foldl_cons]
    exact ih _ rest

theorem natToBits_foldl (w : Nat) :
    ∀ (v acc : Nat),
      (natToBits w v).foldl (fun a c => a * 2 + (if c then 1 else 0)) acc
        = acc * 2 ^ w + v % 2 ^ w := by
  induction w with
  | zero => intro v acc; simp [natToBits, Nat.mod_one]
  | succ w ih =>
    intro v acc
    rw [natToBits, List.foldl_append, ih]
    simp only [List.foldl_cons, List.foldl_nil]
    have h1 : (if ((v % 2 == 1) : Bool) then 1 else 0) = v % 2 := by
      rcases Nat.mod_two_eq_zero_or_one v with h | h <;> simp [h]
    rw [h1]
    have h2 : v % 2 ^ (w + 1) = v % 2 + 2 * (v / 2 % 2 ^ w) := by
      rw [pow_succ']
      exact Nat.mod_mul
    rw [h2]
    ring

theorem readBitsAux_natToBits (w v acc : Nat) (rest : List Bool) :
    readBitsAux w acc (natToBits w v ++ rest) = some (acc * 2 ^ w + v % 2 ^ w, rest) := by
  have h := readBitsAux_append (natToBits w v) acc rest
  rw [natToBits_length] at h
  rw [h, natToBits_foldl]

theorem write_minimal_binary_bits_length (r m : Nat) :
    (write_minimal_binary_bits r m).length = len_minimal_binary r m := by
  unfold write_minimal_binary_bits len_minimal_binary
  by_cases h : r < 2 ^ (floorLog2 m + 1) - m <;> simp [h, natToBits_length]

theorem read_minimal_binary_bits_roundtrip (m r : Nat) (hm : 1 ≤ m) (hr : r < m)
    (rest : List Bool) :
    read_minimal_binary_bits m (write_minimal_binary_bits r m ++ rest) = some (r, rest) := by
  have hlow : 2 ^ floorLog2 m ≤ m := pow_floorLog2_le m hm
  have hhigh : m < 2 ^ (floorLog2 m + 1) := lt_pow_floorLog2_succ m
  have hpow : 2 ^ (floorLog2 m + 1) = 2 ^ floorLog2 m * 2 := pow_succ 2 (floorLog2 m)
  by_cases hcase : r < 2 ^ (floorLog2 m + 1) - m
  · have hrlow : r < 2 ^ floorLog2 m := by omega
    have hbits := readBitsAux_natToBits (floorLog2 m) r 0 rest
    rw [Nat.zero_mul, Nat.zero_add, Nat.mod_eq_of_lt hrlow] at hbits
    rw [write_minimal_binary_bits, if_pos hcase, read_minimal_binary_bits, hbits]
    simp [hcase]
  · have hx : r + (2 ^ (floorLog2 m + 1) - m) < 2 ^ (floorLog2 m + 1) := by omega
    have hx2 : (r + (2 ^ (floorLog2 m + 1) - m)) / 2 < 2 ^ floorLog2 m := by
      rw [Nat.div_lt_iff_lt_mul (by omega : 0 < 2)]
      omega
    have hxge : ¬((r + (2 ^ (floorLog2 m + 1) - m)) / 2 < 2 ^ (floorLog2 m + 1) - m) := by
      have : (2 ^ (floorLog2 m + 1) - m) * 2 ≤ r + (2 ^ (floorLog2 m + 1) - m) := by omega
      have := (Nat.le_div_iff_mul_le (by omega : 0 < 2)).mpr this
      omega
    have hsplit : write_minimal_binary_bits r m ++ rest
        = natToBits (floorLog2 m) ((r + (2 ^ (floorLog2 m + 1) - m)) / 2)
          ++ (((r + (2 ^ (floorLog2 m + 1) - m)) % 2 == 1)
            :: rest) := by
      rw [write_minimal_binary_bits, if_neg hcase, natToBits, List.append_assoc,
        List.singleton_append]
    have hbits := readBitsAux_natToBits (floorLog2 m)
      ((r + (2 ^ (floorLog2 m + 1) - m)) / 2) 0
      (((r + (2 ^ (floorLog2 m + 1) - m)) % 2 == 1) :: rest)
    rw [Nat.zero_mul, Nat.zero_add, Nat.mod_eq_of_lt hx2] at hbits
    rcases Nat.mod_two_eq_zero_or_one (r + (2 ^ (floorLog2 m + 1) - m)) with hpar | hpar <;>
      rw [hsplit, read_minimal_binary_bits, hbits] <;>
      simp [hxge, hpar] <;>
      omega

theorem listReader_unary (q : Nat) (rest : List Bool) :
    listReader.read_unary (write_unary_bits q ++ rest) = (Except.ok q, rest) := by
  simp [listReader, read_unary_bits_roundtrip]

theorem listReader_minimal_binary (r m : Nat) (rest : List Bool) (hr : r < m) :
    listReader.read_minimal_binary m (write_minimal_binary_bits r m ++ rest)
      = (Except.ok r, rest) := by
  have hm : 1 ≤ m := by omega
  simp [listReader, read_minimal_binary_bits_roundtrip m r hm hr rest]

theorem listWriter_unary_len (q : Nat) (s : List Bool) (k : Nat) (s₁ : List Bool)
    (h : listWriter.write_unary q s = (Except.ok k, s₁)) :
    k = q + 1 ∧ List.length s₁ = List.length s + k := by
  simp only [listWriter, Prod.mk.injEq, Except.ok.injEq] at h
  obtain ⟨hk, hs⟩ := h
  subst hs
  rw [← hk, write_unary_bits_length]
  simp [write_unary_bits]

theorem listWriter_minimal_len (r m : Nat) (s : List Bool) (k : Nat) (s₁ : List Bool)
    (h : listWriter.write_minimal_binary r m s = (Except.ok k, s₁)) :
    k = len_minimal_binary r m ∧ List.length s₁ = List.length s + k := by
  simp only [listWriter, Prod.mk.injEq, Except.ok.injEq] at h
  obtain ⟨hk, hs⟩ := h
  subst hs
  rw [← hk, write_minimal_binary_bits_length]
  simp [write_minimal_binary_bits_length]

/-- C1: Round-trip: for every value x representable in u64 and every modulus b
at least 1, writing x with write_golomb and then reading the resulting bit
stream with read_golomb under the same b yields x again, provided the
underlying unary and minimal binary sub-codes round-trip, that is, each
sub-writer emits its code and each sub-reader decodes that code and consumes
exactly it. -/
theorem golomb_roundtrip {ε : Type}
    (W : WriterOps (List Bool) ε) (R : ReaderOps (List Bool) ε)
    (eU : Nat → List Bool) (eM : Nat → Nat → List Bool)
    (hWU : ∀ q s, W.write_unary q s = (Except.ok (eU q).length, s ++ eU q))
    (hWM : ∀ r m s, r < m →
      W.write_minimal_binary r m s = (Except.ok (eM r m).length, s ++ eM r m))
    (hRU : ∀ q rest, R.read_unary (eU q ++ rest) = (Except.ok q, rest))
    (hRM : ∀ r m rest, r < m →
      R.read_minimal_binary m (eM r m ++ rest) = (Except.ok r, rest))
    (x b : Nat) (hb : 1 ≤ b) (hx : x < 2 ^ 64) (rest : List Bool) :
    read_golomb R b ((write_golomb W x b []).2 ++ rest) = (Except.ok x, rest) := by
  have hrb : x % b < b := Nat.mod_lt x (by omega)
  have hw : write_golomb W x b []
      = (Except.ok ((eU (x / b)).length + (eM (x % b) b).length),
         eU (x / b) ++ eM (x % b) b) := by
    unfold write_golomb
    simp only [hWU, List.nil_append]
    rw [hWM _ _ _ hrb]
  have hw2 : (write_golomb W x b []).2 = eU (x / b) ++ eM (x % b) b := by rw [hw]
  have hRM2 := hRM (x % b) b rest hrb
  have hqb : x / b * b + x % b = x := by
    rw [Nat.mul_comm]
    exact Nat.div_add_mod x b
  rw [hw2, List.append_assoc]
  unfold read_golomb
  simp only [hRU, hRM2]
  rw [hqb, Nat.mod_eq_of_lt hx]

/-- C1 witness: the round-trip theorem at x equal to 10 and b equal to 3 with
the modelled list-based sub-codes. -/
theorem golomb_roundtrip_witness :
    read_golomb listReader 3 ((write_golomb listWriter 10 3 []).2 ++ []) = (Except.ok 10, []) :=
  golomb_roundtrip listWriter listReader write_unary_bits write_minimal_binary_bits
    (fun _ _ => rfl) (fun _ _ _ _ => rfl) listReader_unary listReader_minimal_binary
    10 3 (by norm_num) (by norm_num) []

/-- C2: Length agreement: whenever both sub-writers succeed, write_golomb
returns a bit count equal to len_golomb, and the sink position, measured by any
bit-position measure that each sub-writer advances by exactly its reported
count, advances by that same amount, so the number of bits actually written
equals the pure length calculator. -/
theorem write_golomb_len_agreement {σ ε : Type}
    (W : WriterOps σ ε) (μ : σ → Nat)
    (hWU : ∀ q s k s₁, W.write_unary q s = (Except.ok k, s₁) →
      k = q + 1 ∧ μ s₁ = μ s + k)
    (hWM : ∀ r m s k s₁, W.write_minimal_binary r m s = (Except.ok k, s₁) →
      k = len_minimal_binary r m ∧ μ s₁ = μ s + k)
    (n b : Nat) (s sfin : σ) (k : Nat)
    (h : write_golomb W n b s = (Except.ok k, sfin)) :
    k = len_golomb n b ∧ μ sfin = μ s + len_golomb n b := by
  unfold write_golomb at h
  split at h
  · simp at h
  · rename_i k₁ s₁ heq
    split at h
    · simp at h
    · rename_i k₂ s₂ heq2
      simp only [Prod.mk.injEq, Except.ok.injEq] at h
      obtain ⟨hk, hs⟩ := h
      subst hs
      obtain ⟨hk1, hm1⟩ := hWU _ _ _ _ heq
      obtain ⟨hk2, hm2⟩ := hWM _ _ _ _ _ heq2
      unfold len_golomb
      constructor
      · omega
      · omega

/-- C2 witness: the length-agreement theorem at x equal to 10 and b equal to 3
with the modelled list-based sink, whose bit position is the list length. -/
theorem write_golomb_len_agreement_witness :
    (6 : Nat) = len_golomb 10 3
    ∧ List.length [false, false, false, true, true, false]
      = List.length ([] : List Bool) + len_golomb 10 3 :=
  write_golomb_len_agreement listWriter List.length listWriter_unary_len
    listWriter_minimal_len 10 3 [] [false, false, false, true, true, false] 6 (by rfl)

/-- C3: Length formula: len_golomb is the quotient plus one, the unary length
of the quotient, plus the minimal binary length of the remainder; the quotient
plus one is exactly the bit count of the modelled unary code of the quotient. -/
theorem len_golomb_formula (n b : Nat) (hb : 1 ≤ b) :
    len_golomb n b = n / b + 1 + len_minimal_binary (n % b) b
    ∧ (write_unary_bits (n / b)).length = n / b + 1 :=
  ⟨rfl, write_unary_bits_length (n / b)⟩

/-- C3 witness: the length-formula theorem at x equal to 0 and b equal to 5,
giving the instance named by the specification. -/
theorem len_golomb_formula_witness :
    1 ≤ 5 ∧ len_golomb 0 5 = 1 + len_minimal_binary 0 5 := by
  refine ⟨by norm_num, ?_⟩
  have h := (len_golomb_formula 0 5 (by norm_num)).1
  simpa using h

/-- C4: Decoder composition: read_golomb first performs the unary read, then
performs the minimal binary read starting exactly in the state the unary read
left behind, with no seeking or lookahead, and returns q * b + r whenever that
value is representable in u64. -/
theorem read_golomb_composition {σ ε : Type}
    (R : ReaderOps σ ε) (b : Nat) (s s₁ s₂ : σ) (q r : Nat)
    (hu : R.read_unary s = (Except.ok q, s₁))
    (hm : R.read_minimal_binary b s₁ = (Except.ok r, s₂))
    (hfit : q * b + r < 2 ^ 64) :
    read_golomb R b s = (Except.ok (q * b + r), s₂) := by
  unfold read_golomb
  simp only [hu, hm]
  rw [Nat.mod_eq_of_lt hfit]

/-- C4 witness: the composition theorem on the concrete six-bit stream of the
specification scenario, where the unary read yields 3 consuming four bits and
the minimal binary read yields 1 consuming the remaining two bits. -/
theorem read_golomb_composition_witness :
    read_golomb listReader 3 [false, false, false, true, true, false]
      = (Except.ok (3 * 3 + 1), []) :=
  read_golomb_composition listReader 3 [false, false, false, true, true, false]
    [true, false] [] 3 1 (by rfl) (by rfl) (by norm_num)

/-- C7: Error propagation: a failure of the unary read makes read_golomb return
that same error with the stream state the failing read left behind, without the
minimal binary read being able to affect the outcome; a failure of the minimal
binary read after a successful unary read is likewise returned unchanged; and
the two write paths behave the same way, the sink state left by the failing
sub-writer, hence every bit already flushed, being returned as is with no
cleanup. -/
theorem golomb_error_propagation {σ ε : Type}
    (R : ReaderOps σ ε) (W : WriterOps σ ε) (b n : Nat) (s : σ) (e : ε) (s₁ : σ) :
    (R.read_unary s = (Except.error e, s₁) → read_golomb R b s = (Except.error e, s₁))
    ∧ (∀ q s₂, R.read_unary s = (Except.ok q, s₂) →
        R.read_minimal_binary b s₂ = (Except.error e, s₁) →
        read_golomb R b s = (Except.error e, s₁))
    ∧ (W.write_unary (n / b) s = (Except.error e, s₁) →
        write_golomb W n b s = (Except.error e, s₁))
    ∧ (∀ k s₂, W.write_unary (n / b) s = (Except.ok k, s₂) →
        W.write_minimal_binary (n % b) b s₂ = (Except.error e, s₁) →
        write_golomb W n b s = (Except.error e, s₁)) := by
  refine ⟨?_, ?_, ?_, ?_⟩
  · intro h
    unfold read_golomb
    simp only [h]
  · intro q s₂ h1 h2
    unfold read_golomb
    simp only [h1, h2]
  · intro h
    unfold write_golomb
    simp only [h]
  · intro k s₂ h1 h2
    unfold write_golomb
    simp only [h1, h2]

/-- C7 witness: the propagation theorem on a truncated stream of two zero bits,
on which the unary read fails, and on a sink whose sub-writers always fail. -/
theorem golomb_error_propagation_witness :
    read_golomb listReader 3 [false, false] = (Except.error (), [])
    ∧ write_golomb failWriter 10 3 [] = (Except.error (), []) :=
  ⟨(golomb_error_propagation listReader failWriter 3 10 [false, false] () []).1 (by rfl),
   (golomb_error_propagation listReader failWriter 3 10 [] () []).2.2.1 (by rfl)⟩

/-- C8: Zero-modulus precondition: with the division and the remainder of the
source modelled as the checked u64 operations of Rust, a modulus of at least 1
makes len_golomb and write_golomb fault-free and equal to their unchecked
translations, while a modulus of 0 makes both divide by zero; read_golomb
contains no division at all, so under the precondition every arithmetic
operation of the core is well-defined. -/
theorem golomb_division_safety {σ ε : Type} (W : WriterOps σ ε) (n : Nat) (s : σ) :
    (∀ b, 1 ≤ b → len_golombChecked n b = some (len_golomb n b))
    ∧ (∀ b, 1 ≤ b → write_golombChecked W n b s = some (write_golomb W n b s))
    ∧ len_golombChecked n 0 = none
    ∧ write_golombChecked W n 0 s = none := by
  refine ⟨?_, ?_, ?_, ?_⟩
  · intro b hb
    unfold len_golombChecked checkedDiv checkedMod len_golomb
    rw [if_neg (by omega), if_neg (by omega)]
  · intro b hb
    unfold write_golombChecked checkedDiv checkedMod write_golomb
    rw [if_neg (by omega), if_neg (by omega)]
  · simp [len_golombChecked, checkedDiv]
  · simp [write_golombChecked, checkedDiv]

/-- C8 witness: the division-safety theorem at n equal to 10, with the checked
length agreeing with the pure length at b equal to 3 and faulting at b equal
to 0. -/
theorem golomb_division_safety_witness :
    len_golombChecked 10 3 = some (len_golomb 10 3) ∧ len_golombChecked 10 0 = none :=
  ⟨(golomb_division_safety listWriter 10 ([] : List Bool)).1 3 (by norm_num),
   (golomb_division_safety listWriter 10 ([] : List Bool)).2.2.1⟩

/-- C9: Implicit decoder overflow: when the underlying stream decodes to a
quotient q and remainder r with q * b + r at least 2 ^ 64, read_golomb still
returns successfully, with the value reduced modulo 2 ^ 64 and hence different
from the mathematical q * b + r, rather than reporting an error. -/
theorem read_golomb_overflow {σ ε : Type}
    (R : ReaderOps σ ε) (b : Nat) (s s₁ s₂ : σ) (q r : Nat)
    (hu : R.read_unary s = (Except.ok q, s₁))
    (hm : R.read_minimal_binary b s₁ = (Except.ok r, s₂))
    (hof : 2 ^ 64 ≤ q * b + r) :
    read_golomb R b s = (Except.ok ((q * b + r) % 2 ^ 64), s₂)
    ∧ (q * b + r) % 2 ^ 64 ≠ q * b + r := by
  constructor
  · unfold read_golomb
    simp only [hu, hm]
  · have hlt : (q * b + r) % 2 ^ 64 < 2 ^ 64 := Nat.mod_lt _ (by norm_num)
    omega

/-- C9 witness: the overflow theorem on a source decoding to the quotient
2 ^ 63 and the remainder 1 under b equal to 2, where the decoder returns 1
instead of 2 ^ 64 + 1. -/
theorem read_golomb_overflow_witness :
    read_golomb bigReader 2 () = (Except.ok ((2 ^ 63 * 2 + 1) % 2 ^ 64), ())
    ∧ (2 ^ 63 * 2 + 1) % 2 ^ 64 ≠ 2 ^ 63 * 2 + 1 :=
  read_golomb_overflow bigReader 2 () () () (2 ^ 63) 1 rfl rfl (by norm_num)

end GolombSpec
